import Mathlib

/-!
Verification development for the reno release-notes scanner
(`reno/scanner.py`, `reno/config.py`).

The Python code is shallowly embedded: paths, tags, shas and versions are
`String`s, dictionaries are association lists kept in insertion order,
sets are duplicate-free membership lists, exceptions are `Except`.
String computations are carried out on `String.data` (`List Char`) so that
every definition evaluates inside the kernel; Python string comparison is
code-point lexicographic, mirrored by `strLt`/`strLe` below.
-/

deriving instance DecidableEq for Except

namespace Reno

/-- Python `a < b` on strings: lexicographic by code point. -/
def strLtL : List Char → List Char → Bool
  | [], [] => false
  | [], _ :: _ => true
  | _ :: _, [] => false
  | a :: as, b :: bs =>
    if a.toNat < b.toNat then true
    else if b.toNat < a.toNat then false
    else strLtL as bs

/-- Python `a <= b` on strings. -/
def strLeL : List Char → List Char → Bool
  | [], _ => true
  | _ :: _, [] => false
  | a :: as, b :: bs =>
    if a.toNat < b.toNat then true
    else if b.toNat < a.toNat then false
    else strLeL as bs

theorem strLeL_total : ∀ a b, strLeL a b = true ∨ strLeL b a = true := by
  intro a
  induction a with
  | nil => intro b; left; simp [strLeL]
  | cons x xs ih =>
    intro b
    cases b with
    | nil => right; simp [strLeL]
    | cons y ys =>
      by_cases hxy : x.toNat < y.toNat
      · left; simp [strLeL, hxy]
      · by_cases hyx : y.toNat < x.toNat
        · right; simp [strLeL, hyx]
        · rcases ih ys with h | h
          · left; simp [strLeL, hxy, hyx, h]
          · right; simp [strLeL, hxy, hyx, h]

theorem strLeL_trans :
    ∀ a b c, strLeL a b = true → strLeL b c = true → strLeL a c = true := by
  intro a
  induction a with
  | nil => intro b c _ _; simp [strLeL]
  | cons x xs ih =>
    intro b c hab hbc
    cases b with
    | nil => simp [strLeL] at hab
    | cons y ys =>
      cases c with
      | nil => simp [strLeL] at hbc
      | cons z zs =>
        simp only [strLeL] at hab hbc ⊢
        by_cases hxy : x.toNat < y.toNat
        · by_cases hyz : y.toNat < z.toNat
          · simp [Nat.lt_trans hxy hyz]
          · by_cases hzy : z.toNat < y.toNat
            · simp [hyz, hzy] at hbc
            · have hxz : x.toNat < z.toNat := by omega
              simp [hxz]
        · by_cases hyx : y.toNat < x.toNat
          · simp [hxy, hyx] at hab
          · simp only [if_neg hxy, if_neg hyx] at hab
            by_cases hyz : y.toNat < z.toNat
            · have hxz : x.toNat < z.toNat := by omega
              simp [hxz]
            · by_cases hzy : z.toNat < y.toNat
              · simp [hyz, hzy] at hbc
              · simp only [if_neg hyz, if_neg hzy] at hbc
                have hxz : ¬ x.toNat < z.toNat := by omega
                have hzx : ¬ z.toNat < x.toNat := by omega
                simp only [if_neg hxz, if_neg hzx]
                exact ih ys zs hab hbc

def strLt (a b : String) : Bool := strLtL a.data b.data

def strLe (a b : String) : Bool := strLeL a.data b.data

example : strLt "1.0.0" "1.0.0.2" = true := by decide
example : strLe "abc" "abc" = true := by decide

theorem strLtL_trans :
    ∀ a b c, strLtL a b = true → strLtL b c = true → strLtL a c = true := by
  intro a
  induction a with
  | nil =>
    intro b c hab hbc
    cases b with
    | nil => simp [strLtL] at hab
    | cons y ys => cases c with
      | nil => simp [strLtL] at hbc
      | cons z zs => simp [strLtL]
  | cons x xs ih =>
    intro b c hab hbc
    cases b with
    | nil => simp [strLtL] at hab
    | cons y ys =>
      cases c with
      | nil => simp [strLtL] at hbc
      | cons z zs =>
        simp only [strLtL] at hab hbc ⊢
        by_cases hxy : x.toNat < y.toNat
        · by_cases hyz : y.toNat < z.toNat
          · simp [Nat.lt_trans hxy hyz]
          · by_cases hzy : z.toNat < y.toNat
            · simp [hyz, hzy] at hbc
            · have hxz : x.toNat < z.toNat := by omega
              simp [hxz]
        · by_cases hyx : y.toNat < x.toNat
          · simp [hxy, hyx] at hab
          · simp only [if_neg hxy, if_neg hyx] at hab
            by_cases hyz : y.toNat < z.toNat
            · have hxz : x.toNat < z.toNat := by omega
              simp [hxz]
            · by_cases hzy : z.toNat < y.toNat
              · simp [hyz, hzy] at hbc
              · simp only [if_neg hyz, if_neg hzy] at hbc
                have hxz : ¬ x.toNat < z.toNat := by omega
                have hzx : ¬ z.toNat < x.toNat := by omega
                simp only [if_neg hxz, if_neg hzx]
                exact ih ys zs hab hbc

theorem strLtL_connex :
    ∀ a b, strLtL a b = false → strLtL b a = false → a = b := by
  intro a
  induction a with
  | nil =>
    intro b hab _
    cases b with
    | nil => rfl
    | cons y ys => simp [strLtL] at hab
  | cons x xs ih =>
    intro b hab hba
    cases b with
    | nil => simp [strLtL] at hba
    | cons y ys =>
      simp only [strLtL] at hab hba
      by_cases hxy : x.toNat < y.toNat
      · simp [hxy] at hab
      · by_cases hyx : y.toNat < x.toNat
        · simp [hxy, hyx] at hba
        · have hn : x.toNat = y.toNat := by omega
          have hx : x = y := Char.ext (UInt32.ext hn)
          simp only [if_neg hxy, if_neg hyx] at hab hba
          rw [hx, ih ys (by simpa [hx] using hab) (by simpa [hx] using hba)]

/-- Python `<=` between the commit-sha halves of two bucket entries
(`None` sorts first; real runs never compare the second components because
paths determine the UID and are therefore distinct). -/
def optShaLe : Option String → Option String → Bool
  | none, _ => true
  | some _, none => false
  | some a, some b => strLe a b

/-- Python `<=` on the `(path, sha)` tuples that `sorted` orders in the
trimming pass of `get_notes_by_version`. -/
def pairLe (a b : String × Option String) : Prop :=
  strLt a.1 b.1 = true ∨ (a.1 = b.1 ∧ optShaLe a.2 b.2 = true)

instance : DecidableRel pairLe := fun _ _ => by unfold pairLe; infer_instance

instance : IsTotal (String × Option String) pairLe where
  total a b := by
    rcases h : strLt a.1 b.1 with _ | _
    · rcases h' : strLt b.1 a.1 with _ | _
      · have hab : a.1 = b.1 := String.ext (strLtL_connex _ _ h h')
        cases ha : a.2 with
        | none => exact Or.inl (Or.inr ⟨hab, by simp [ha, optShaLe]⟩)
        | some sa =>
          cases hb : b.2 with
          | none => exact Or.inr (Or.inr ⟨hab.symm, by simp [hb, optShaLe]⟩)
          | some sb =>
            rcases strLeL_total sa.data sb.data with hle | hle
            · exact Or.inl (Or.inr ⟨hab, by simp [ha, hb, optShaLe, strLe, hle]⟩)
            · exact Or.inr (Or.inr ⟨hab.symm, by simp [ha, hb, optShaLe, strLe, hle]⟩)
      · exact Or.inr (Or.inl h')
    · exact Or.inl (Or.inl h)

instance : IsTrans (String × Option String) pairLe where
  trans a b c hab hbc := by
    rcases hab with hab | ⟨hab, hab2⟩
    · rcases hbc with hbc | ⟨hbc, _⟩
      · exact Or.inl (strLtL_trans _ _ _ hab hbc)
      · exact Or.inl (hbc ▸ hab)
    · rcases hbc with hbc | ⟨hbc, hbc2⟩
      · exact Or.inl (hab ▸ hbc)
      · refine Or.inr ⟨hab.trans hbc, ?_⟩
        cases ha : a.2 with
        | none => simp [ha, optShaLe]
        | some sa =>
          cases hb : b.2 with
          | none => simp [ha, hb, optShaLe] at hab2
          | some sb =>
            cases hc : c.2 with
            | none => simp [hb, hc, optShaLe] at hbc2
            | some sc =>
              simp only [ha, hb, hc, optShaLe, strLe] at hab2 hbc2 ⊢
              exact strLeL_trans _ _ _ hab2 hbc2

/-- Key ordering used for Python `sorted(by_uid.items())`: tuples are
compared by their first (UID) component; the dictionary keys are distinct,
so the second components are never reached. -/
def uidKeyLe {α : Type} (a b : String × α) : Prop := strLe a.1 b.1 = true

instance {α : Type} : DecidableRel (uidKeyLe (α := α)) := fun _ _ => by
  unfold uidKeyLe; infer_instance

instance {α : Type} : IsTotal (String × α) uidKeyLe where
  total a b := strLeL_total a.1.data b.1.data

instance {α : Type} : IsTrans (String × α) uidKeyLe where
  trans _ _ _ hab hbc := strLeL_trans _ _ _ hab hbc

/-- Python dict update `d[k].append(x)` for an order-preserving
association list (a no-op when the key is absent; the callers below only
append under keys that are present). -/
def alAppendAt {β : Type} (l : List (String × List β)) (k : String) (x : β) :
    List (String × List β) :=
  l.map fun p => if p.1 = k then (p.1, p.2 ++ [x]) else p

/-- Python dict update `d[k].extend(xs)`. -/
def alExtendAt {β : Type} (l : List (String × List β)) (k : String) (xs : List β) :
    List (String × List β) :=
  l.map fun p => if p.1 = k then (p.1, p.2 ++ xs) else p

/-- Python dict assignment `d[k] = v`: overwrite in place when present
(dict order keeps the original slot), append otherwise. -/
def alSet {β : Type} (l : List (String × β)) (k : String) (v : β) :
    List (String × β) :=
  if (l.lookup k).isSome then l.map (fun p => if p.1 = k then (p.1, v) else p)
  else l ++ [(k, v)]

/-- Python `set.add` on a membership list. -/
def setAdd (s : List String) (x : String) : List String :=
  if x ∈ s then s else s ++ [x]

/-- `os.path.basename`: the part of the path after the last `/`. -/
def basenameL (l : List Char) : List Char :=
  ((l.reverse.takeWhile (fun c => c ≠ '/')).reverse)

/-- The root part of `os.path.splitext` applied to a basename: drop the
suffix starting at the last dot, provided some earlier character of the
name is not a dot (so names made only of leading dots keep their "extension"). -/
def splitextRootL (l : List Char) : List Char :=
  match l.reverse.dropWhile (fun c => c ≠ '.') with
  | [] => l
  | _ :: pre =>
    if pre.reverse.any (fun c => c ≠ '.') then pre.reverse else l

example : splitextRootL "slug-0123456789abcdef.yaml".data = "slug-0123456789abcdef".data := by decide
example : splitextRootL ".yaml".data = ".yaml".data := by decide
example : splitextRootL "noext".data = "noext".data := by decide

/-- `_get_unique_id` (scanner.py): basename, extension stripped, then the
last 16 characters of the stem; if those contain a `-` the file is a legacy
name and the first 16 characters are used instead. -/
def get_unique_id (filename : String) : String :=
  let base := basenameL filename.data
  let root := splitextRootL base
  let uniqueid := (root.reverse.take 16).reverse
  if uniqueid.any (fun c => c = '-') then String.mk (root.take 16)
  else String.mk uniqueid

example : get_unique_id "releasenotes/notes/slug-0123456789abcdef.yaml" = "0123456789abcdef" := by decide
example : get_unique_id "releasenotes/notes/0123456789abcdef-slug.yaml" = "0123456789abcdef" := by decide

/-- `_note_file` (scanner.py): a (non-empty) name counts as a note file iff
it matches the glob `*.yaml`; `None` paths are rejected. -/
def note_file (name : Option String) : Bool :=
  match name with
  | none => false
  | some n =>
    if n.data = [] then false
    else (n.data.reverse.take 5).reverse = ".yaml".data

example : note_file (some "releasenotes/notes/slug-0123456789abcdef.yaml") = true := by decide
example : note_file (some "ignore-1.txt") = false := by decide
example : note_file none = false := by decide

/-- A component of a parsed version: Python keeps the `int` when `int(p)`
succeeds and the raw string otherwise; `==` between an int and a string is
`False`, matching the derived equality here. -/
inductive VPart where
  | int (n : Int)
  | str (s : String)
deriving DecidableEq

/-- Python `int(p)` on the strings that can reach `_parse_version`:
optional surrounding spaces, an optional sign, then one or more digits. -/
def pyInt? (s : String) : Option Int :=
  let t := (s.data.dropWhile (fun c => c = ' ')).reverse.dropWhile (fun c => c = ' ') |>.reverse
  let core := match t with
    | '+' :: r => some (r, (1 : Int))
    | '-' :: r => some (r, (-1 : Int))
    | r => some (r, (1 : Int))
  match core with
  | some (digits, sign) =>
    if digits = [] ∨ digits.any (fun c => ¬ c.isDigit) then none
    else some (sign * (digits.foldl (fun acc c => acc * 10 + (c.toNat - '0'.toNat)) 0 : Nat))
  | none => none

example : pyInt? "12" = some 12 := by decide
example : pyInt? "0rc1" = none := by decide
example : pyInt? "v1" = none := by decide

/-- Python `v.split('.')`. -/
def splitOnDot (l : List Char) : List (List Char) :=
  match l with
  | [] => [[]]
  | x :: xs =>
    let r := splitOnDot xs
    if x = '.' then [] :: r
    else
      match r with
      | [] => [[x]]
      | h :: t => (x :: h) :: t

example : splitOnDot "1.0.0.2".data = ["1".data, "0".data, "0".data, "2".data] := by decide

/-- `_parse_version` (scanner.py): split on dots, pad with `'0'`s, keep the
first three parts, turning each into an int when possible. -/
def parse_version (v : String) : List VPart :=
  let parts := (splitOnDot v.data).map String.mk ++ ["0", "0", "0"]
  (parts.take 3).map (fun p =>
    match pyInt? p with
    | some n => VPart.int n
    | none => VPart.str p)

example : parse_version "1.0.0" = [.int 1, .int 0, .int 0] := by decide
example : parse_version "1.0.0.2" = [.int 1, .int 0, .int 0] := by decide
example : parse_version "1.0.0rc1" = [.int 1, .int 0, .str "0rc1"] := by decide
example : parse_version "2.1" = [.int 2, .int 1, .int 0] := by decide

/-- The result of `self.pre_release_tag_re.search(tag)` as far as
`_strip_pre_release` inspects it: `pre_release` holds the span
`(start, end)` of the named group, and `none` in that field models the
`IndexError` Python raises when the compiled pattern has no group called
`pre_release`. -/
structure PreReleaseMatch where
  pre_release : Option (Nat × Nat)
deriving DecidableEq

/-- Error kinds surfaced by the scanner (all `ValueError` in Python). -/
inductive ScanError where
  | misconfiguredRegex
  | unknownRef
deriving DecidableEq

/-- `Scanner._strip_pre_release` (scanner.py): remove the span of the
`pre_release` group when the pre-release regex matches, return the tag
unchanged when it does not, and fail when the regex matched but exposes no
group named `pre_release`. -/
def strip_pre_release (search : String → Option PreReleaseMatch) (tag : String) :
    Except ScanError String :=
  match search tag with
  | some m =>
    match m.pre_release with
    | none => .error .misconfiguredRegex
    | some (s, e) => .ok (String.mk (tag.data.take s ++ tag.data.drop e))
  | none => .ok tag

/-- Matcher for the default `pre_release_tag_re` pattern
`(?P<pre_release>\.v?\d+(?:[ab]|rc)+\d*)$` — the `(?:[ab]|rc)+\d*` tail,
after the leading `\.v?\d+` has been consumed. -/
def preGroupsTail : List Char → Bool
  | 'a' :: r => preGroupsTail r
  | 'b' :: r => preGroupsTail r
  | 'r' :: 'c' :: r => preGroupsTail r
  | l => l.all (fun c => c.isDigit)

/-- One mandatory `[ab]|rc` group followed by `(?:[ab]|rc)*\d*` (matching
is deterministic here: none of `a`, `b`, `r` is a digit, so the greedy
repetition never needs to backtrack). -/
def preGroupsPlus : List Char → Bool
  | 'a' :: r => preGroupsTail r
  | 'b' :: r => preGroupsTail r
  | 'r' :: 'c' :: r => preGroupsTail r
  | _ => false

/-- Whether a suffix of the tag matches the whole default pre-release
pattern `\.v?\d+(?:[ab]|rc)+\d*` up to the end of the string (the optional
`v` must be consumed when present, because `\d+` cannot match it). -/
def preSuffixMatch : List Char → Bool
  | '.' :: r =>
    let r2 := match r with
      | 'v' :: r' => r'
      | _ => r
    let digits := r2.takeWhile Char.isDigit
    let rest := r2.dropWhile Char.isDigit
    !digits.isEmpty && preGroupsPlus rest
  | _ => false

/-- `re.search` with the default pre-release pattern: index of the
leftmost position whose suffix matches through to `$`. -/
def preSearchIdx : List Char → Option Nat
  | [] => none
  | x :: xs => if preSuffixMatch (x :: xs) then some 0 else (preSearchIdx xs).map (· + 1)

/-- The default `pre_release_tag_re` (config.py) wrapped in the match
interface consumed by `strip_pre_release`: the whole pattern is the
`pre_release` group, so its span runs from the match start to the end of
the tag. -/
def default_pre_release_search (tag : String) : Option PreReleaseMatch :=
  (preSearchIdx tag.data).map fun i => ⟨some (i, tag.data.length)⟩

/-- `bool(self.pre_release_tag_re.search(tag))` for the default pattern. -/
def default_is_pre_release (tag : String) : Bool :=
  (preSearchIdx tag.data).isSome

/-- `Scanner._strip_pre_release` specialised to the default pattern (which
always exposes the `pre_release` group, so no error can occur). -/
def strip_pre_release_default (tag : String) : String :=
  match preSearchIdx tag.data with
  | some i => String.mk (tag.data.take i)
  | none => tag

example : default_pre_release_search "12.0.0.0rc1" = some ⟨some (6, 11)⟩ := by decide
example : strip_pre_release_default "12.0.0.0rc1" = "12.0.0" := by decide
example : strip_pre_release_default "1.0.0.0a1" = "1.0.0" := by decide
example : strip_pre_release_default "1.0.0.2" = "1.0.0.2" := by decide
example : default_is_pre_release "1.0.0" = false := by decide
example : strip_pre_release_default "6.0.0.v2b1" = "6.0.0" := by decide

/-- `Scanner._find_scan_stop_point` (scanner.py).  The series-branch
helpers `_get_earlier_branch` and `_get_branch_base` are abstracted as
function parameters, and `bool(self.pre_release_tag_re.search(...))` as
`is_pre`.  `earliest_version = none` models a falsy earliest version and
`branch = none` a falsy branch (scanning the current branch). -/
def find_scan_stop_point
    (is_pre : String → Bool)
    (get_earlier_branch : String → Option String)
    (branch_base : String → Option String)
    (earliest_version : Option String)
    (versions_by_date : List String)
    (collapse_pre_releases : Bool)
    (branch : Option String) : Option String :=
  match earliest_version with
  | none => none
  | some ev =>
    let earliest_parts := parse_version ev
    match versions_by_date.indexOf? ev with
    | none => none
    | some i =>
      let idx := i + 1
      if (match branch with
          | some b => !(b == "") && !(b == "master")
          | none => false : Bool) then
        match branch.bind get_earlier_branch with
        | none => none
        | some previous_branch => branch_base previous_branch
      else
        if is_pre ev ∧ ¬ collapse_pre_releases then versions_by_date.get? idx
        else (versions_by_date.drop idx).find? (fun c => parse_version c ≠ earliest_parts)

/-- `Scanner._get_branch_base` (scanner.py).  The dulwich walker is
abstracted as `walk`, returning the commit ids reachable from a ref in
walk order, or the `ValueError` that `_get_ref` raises for an unknown
name.  The branch named `'master'` is hard-coded in the source, exactly as
reproduced here; the configured `default_branch` option is never read. -/
def get_branch_base
    (walk : String → Except ScanError (List String))
    (valid_tags : String → List String)
    (branch : String) : Except ScanError (Option String) :=
  match walk "master" with
  | .error e => .error e
  | .ok master_commits =>
    match walk branch with
    | .error e => .error e
    | .ok branch_commits =>
      match branch_commits.find? (fun c => c ∈ master_commits) with
      | some c =>
        match (valid_tags c).getLast? with
        | some t => .ok (some t)
        | none => .ok none
      | none => .ok none

/-- Modelled from the spec: the branch-base computation as §4.7 and the
`default_branch` option documentation describe it — identical to
`get_branch_base` except that the reachable set is taken from the
*configured* default branch instead of the literal `'master'`. -/
def get_branch_base_spec
    (default_branch : String)
    (walk : String → Except ScanError (List String))
    (valid_tags : String → List String)
    (branch : String) : Except ScanError (Option String) :=
  match walk default_branch with
  | .error e => .error e
  | .ok base_commits =>
    match walk branch with
    | .error e => .error e
    | .ok branch_commits =>
      match branch_commits.find? (fun c => c ∈ base_commits) with
      | some c =>
        match (valid_tags c).getLast? with
        | some t => .ok (some t)
        | none => .ok none
      | none => .ok none

/-- `_ChangeTracker` (scanner.py): `versions` in first-seen order,
`earliest_seen` an ordered dict UID → version, `last_name_by_id` a dict
UID → `(filename, sha)` (the sha is `none` for working-copy entries), and
`uniqueids_deleted` a set. -/
structure ChangeTracker where
  versions : List String
  earliest_seen : List (String × String)
  last_name_by_id : List (String × (String × Option String))
  uniqueids_deleted : List String
deriving DecidableEq

def ChangeTracker.init : ChangeTracker := ⟨[], [], [], []⟩

/-- `_ChangeTracker._common`: record the version in first-seen order and
(re)set the earliest version where the UID appears (the sha argument is
only logged in the source). -/
def ChangeTracker.common (t : ChangeTracker) (uniqueid version : String) : ChangeTracker :=
  { t with
    versions := if version ∈ t.versions then t.versions else t.versions ++ [version]
    earliest_seen := alSet t.earliest_seen uniqueid version }

/-- `_ChangeTracker.add`. -/
def ChangeTracker.add (t : ChangeTracker) (filename : String) (sha : Option String)
    (version : String) : ChangeTracker :=
  let uniqueid := get_unique_id filename
  let t := t.common uniqueid version
  if uniqueid ∈ t.uniqueids_deleted then t
  else if (t.last_name_by_id.lookup uniqueid).isSome then t
  else { t with last_name_by_id := t.last_name_by_id ++ [(uniqueid, (filename, sha))] }

/-- `_ChangeTracker.rename` (same state change as `add`). -/
def ChangeTracker.rename (t : ChangeTracker) (filename : String) (sha : Option String)
    (version : String) : ChangeTracker :=
  let uniqueid := get_unique_id filename
  let t := t.common uniqueid version
  if uniqueid ∈ t.uniqueids_deleted then t
  else if (t.last_name_by_id.lookup uniqueid).isSome then t
  else { t with last_name_by_id := t.last_name_by_id ++ [(uniqueid, (filename, sha))] }

/-- `_ChangeTracker.modify` (same state change as `add`). -/
def ChangeTracker.modify (t : ChangeTracker) (filename : String) (sha : Option String)
    (version : String) : ChangeTracker :=
  let uniqueid := get_unique_id filename
  let t := t.common uniqueid version
  if uniqueid ∈ t.uniqueids_deleted then t
  else if (t.last_name_by_id.lookup uniqueid).isSome then t
  else { t with last_name_by_id := t.last_name_by_id ++ [(uniqueid, (filename, sha))] }

/-- `_ChangeTracker.delete`: deleted files are never stored in
`last_name_by_id`; a UID already known there was re-added after this
delete (the walk runs in reverse chronological order) and is left alone. -/
def ChangeTracker.delete (t : ChangeTracker) (filename : String) (sha : Option String)
    (version : String) : ChangeTracker :=
  let uniqueid := get_unique_id filename
  let t := t.common uniqueid version
  if (t.last_name_by_id.lookup uniqueid).isNone then
    { t with uniqueids_deleted := setAdd t.uniqueids_deleted uniqueid }
  else t

/-- One tracker invocation as issued by `get_notes_by_version`. -/
inductive TrackerOp where
  | add (filename : String) (sha : Option String) (version : String)
  | rename (filename : String) (sha : Option String) (version : String)
  | modify (filename : String) (sha : Option String) (version : String)
  | delete (filename : String) (sha : Option String) (version : String)
deriving DecidableEq

def TrackerOp.filename : TrackerOp → String
  | .add f _ _ => f
  | .rename f _ _ => f
  | .modify f _ _ => f
  | .delete f _ _ => f

/-- The UID an operation is about. -/
def TrackerOp.uid (op : TrackerOp) : String := get_unique_id op.filename

def applyOp (t : ChangeTracker) : TrackerOp → ChangeTracker
  | .add f sha v => t.add f sha v
  | .rename f sha v => t.rename f sha v
  | .modify f sha v => t.modify f sha v
  | .delete f sha v => t.delete f sha v

/-- Run a walk's worth of tracker operations on a fresh tracker. -/
def applyOps (ops : List TrackerOp) : ChangeTracker :=
  ops.foldl applyOp ChangeTracker.init

/-- dulwich change types (`diff_tree.CHANGE_*`). -/
inductive CType where
  | add
  | delete
  | modify
  | rename
  | copy
  | unchanged
deriving DecidableEq

/-- A dulwich `TreeChange` as far as `aggregate_changes` reads it: the
type and the (possibly absent) old and new paths. -/
structure TreeChange where
  type : CType
  old_path : Option String
  new_path : Option String
deriving DecidableEq

/-- The `ValueError`s `_ChangeAggregator.aggregate_changes` can raise. -/
inductive AggError where
  | unhandledChangeType
  | duplicateUIDAdd (uid : String)
  | unrecognizedChanges (uid : String)
deriving DecidableEq

/-- Append an entry under a UID in the `by_uid` ordered dict
(`collections.defaultdict(list)`). -/
def byUidAdd (m : List (String × List (CType × String))) (uid : String)
    (e : CType × String) : List (String × List (CType × String)) :=
  if (m.lookup uid).isSome then alAppendAt m uid e else m ++ [(uid, [e])]

/-- The first loop of `aggregate_changes`: bucket the note-file changes of
one commit by UID, keeping `(type, path)`; the commit sha — constant for
the whole call — is re-attached when results are assembled.  Non-note
paths are skipped and unknown change types raise. -/
def collect_by_uid (m : List (String × List (CType × String))) :
    List TreeChange → Except AggError (List (String × List (CType × String)))
  | [] => .ok m
  | c :: cs =>
    match c.type with
    | .add =>
      if note_file c.new_path then
        collect_by_uid
          (byUidAdd m (get_unique_id (c.new_path.getD "")) (.add, c.new_path.getD "")) cs
      else collect_by_uid m cs
    | .delete =>
      if note_file c.old_path then
        collect_by_uid
          (byUidAdd m (get_unique_id (c.old_path.getD "")) (.delete, c.old_path.getD "")) cs
      else collect_by_uid m cs
    | .modify =>
      if note_file c.new_path then
        collect_by_uid
          (byUidAdd m (get_unique_id (c.new_path.getD "")) (.modify, c.new_path.getD "")) cs
      else collect_by_uid m cs
    | _ => .error .unhandledChangeType

/-- One output tuple of `aggregate_changes`: `(uid, type, path, sha)`, or
`(uid, RENAME, old_path, new_path, sha)` for the synthesised renames —
`old` is occupied exactly on those. -/
structure AggResult where
  uid : String
  type : CType
  old : Option String
  path : String
  sha : String
deriving DecidableEq

/-- Python `set(c[0] for c in changes) == set(s)`. -/
def typesExactly (entries : List (CType × String)) (s : List CType) : Bool :=
  [CType.add, .delete, .modify, .rename, .copy, .unchanged].all
    (fun t => (entries.any fun e => decide (e.1 = t)) == decide (t ∈ s))

/-- The per-UID dispatch of `aggregate_changes` over one multi-entry (or
single-entry) group, threading the `_deleted_bad_uids` taint set. -/
def process_group (deleted_bad_uids : List String) (sha uid : String)
    (entries : List (CType × String)) : Except AggError (List String × List AggResult) :=
  match entries with
  | [e] => .ok (deleted_bad_uids, [⟨uid, e.1, none, e.2, sha⟩])
  | _ =>
    if typesExactly entries [.add, .delete] then
      match entries.find? (fun e => decide (e.1 = CType.add)),
            entries.find? (fun e => decide (e.1 = CType.delete)) with
      | some added, some deled =>
        .ok (deleted_bad_uids, [⟨uid, .rename, some deled.2, added.2, sha⟩])
      | _, _ => .error (.unrecognizedChanges uid)
    else if typesExactly entries [.modify] then
      .ok (deleted_bad_uids, entries.map fun e => ⟨uid, .modify, none, e.2, sha⟩)
    else if typesExactly entries [.delete] then
      .ok (setAdd deleted_bad_uids uid, entries.map fun e => ⟨uid, .delete, none, e.2, sha⟩)
    else if typesExactly entries [.add] then
      if uid ∈ deleted_bad_uids then .ok (deleted_bad_uids, [])
      else .error (.duplicateUIDAdd uid)
    else .error (.unrecognizedChanges uid)

/-- The second loop of `aggregate_changes`, over `sorted(by_uid.items())`. -/
def process_groups (deleted_bad_uids : List String) (sha : String) :
    List (String × List (CType × String)) → Except AggError (List String × List AggResult)
  | [] => .ok (deleted_bad_uids, [])
  | (uid, entries) :: rest =>
    match process_group deleted_bad_uids sha uid entries with
    | .error e => .error e
    | .ok (d, rs) =>
      match process_groups d sha rest with
      | .error e => .error e
      | .ok (d2, rs2) => .ok (d2, rs ++ rs2)

/-- `_ChangeAggregator.aggregate_changes` (scanner.py): the state is the
instance's `_deleted_bad_uids` set, `sha` is `walk_entry.commit.id`, and
the incoming changes are lists of `TreeChange`s (dulwich wraps the entries
of a merge commit in lists; plain entries are singleton lists here, which
is what the `isinstance` normalisation in the source produces). -/
def aggregate_changes (deleted_bad_uids : List String) (sha : String)
    (changes : List (List TreeChange)) : Except AggError (List String × List AggResult) :=
  match collect_by_uid [] changes.flatten with
  | .error e => .error e
  | .ok by_uid => process_groups deleted_bad_uids sha (List.insertionSort uidKeyLe by_uid)

/-- A dulwich `WalkEntry` as far as `_topo_traversal` reads it: the
commit's parents and the result of `entry.changes()` (only emptiness is
inspected there). -/
structure WalkEntry where
  id : String
  parents : List String
  changes : List (List TreeChange)
deriving DecidableEq

/-- The loop state of `_topo_traversal`: the `todo` deque and the
`emitted` set. -/
structure TopoState where
  todo : List String
  emitted : List String
deriving DecidableEq

/-- One iteration of the `while todo:` loop of `Scanner._topo_traversal`
(scanner.py).  `all` is the sha → entry map built by the first pass,
`children` the child map, `valid_tags` is `_get_valid_tags_on_commit`.
Returns `none` when the stack is empty, otherwise the new state and the
entry yielded by this iteration (if any). -/
def topo_step (all : String → WalkEntry) (children : String → List String)
    (valid_tags : String → List String) (ignore_null_merges : Bool) :
    TopoState → Option (TopoState × Option WalkEntry)
  | ⟨[], _⟩ => none
  | ⟨sha :: rest, emitted⟩ =>
    let entry := all sha
    let null_merge := ignore_null_merges && decide (1 < entry.parents.length) &&
      entry.parents.tail.any (fun p => !(valid_tags p).isEmpty && entry.changes.isEmpty)
    if null_merge then
      let emitted2 := setAdd (entry.parents.tail.foldl setAdd emitted) sha
      let todo2 := match entry.parents with
        | first_parent :: _ => if first_parent ∈ rest then rest else first_parent :: rest
        | [] => rest
      some (⟨todo2, emitted2⟩, none)
    else
      let unprocessed_children := (children sha).filter (fun c => decide (c ∉ emitted))
      if unprocessed_children.isEmpty then
        let emitted2 := setAdd emitted sha
        let todo2 := entry.parents.foldl (fun td p => if p ∈ td then td else p :: td) rest
        some (⟨todo2, emitted2⟩, some entry)
      else
        some (⟨rest, emitted⟩, none)

/-- The inversion step of `get_notes_by_version`: initialise one empty
bucket per version in first-seen order, then for each UID in
`earliest_seen` append its `last_name_by_id` entry to its earliest
version's bucket; UIDs with no recorded name are skipped. -/
def invert_tracker (t : ChangeTracker) : List (String × List (String × Option String)) :=
  let ft := t.versions.map (fun v => (v, ([] : List (String × Option String))))
  t.earliest_seen.foldl
    (fun acc uv =>
      match t.last_name_by_id.lookup uv.1 with
      | some entry => alAppendAt acc uv.2 entry
      | none => acc)
    ft

/-- The pre-release collapsing pass of `get_notes_by_version`: rebuild the
buckets in `versions_by_date` order, folding each pre-release whose
canonical (stripped) version is also a known tag into that canonical
bucket. -/
def collapse_buckets (is_pre : String → Bool) (strip : String → String)
    (versions_by_date : List String)
    (collapsing : List (String × List (String × Option String))) :
    List (String × List (String × Option String)) :=
  versions_by_date.foldl
    (fun acc ov =>
      if (collapsing.lookup ov).isNone then acc
      else
        let canonical_ver :=
          if is_pre ov then
            let cv := strip ov
            if cv ∈ versions_by_date then cv else ov
          else ov
        let acc := if (acc.lookup canonical_ver).isSome then acc
          else acc ++ [(canonical_ver, [])]
        alExtendAt acc canonical_ver ((collapsing.lookup ov).getD []))
    []

/-- The trimming loop of `get_notes_by_version`: walk `versions_by_date`,
keep only versions whose bucket is non-empty, sort each kept bucket with
Python `sorted` (on the `(path, sha)` tuples), and stop right after
emitting `earliest_version`. -/
def trim_output (earliest_version : Option String)
    (files_and_tags : List (String × List (String × Option String))) :
    List String → List (String × List (String × Option String))
  | [] => []
  | ov :: rest =>
    match files_and_tags.lookup ov with
    | none => trim_output earliest_version files_and_tags rest
    | some [] => trim_output earliest_version files_and_tags rest
    | some bucket =>
      (ov, List.insertionSort pairLe bucket) ::
        (if earliest_version = some ov then []
         else trim_output earliest_version files_and_tags rest)

/-- The tail of `Scanner.get_notes_by_version` (scanner.py), from the
point where the walk has populated the tracker: prepend the synthetic
current version (when missing) and the `*working-copy*` sentinel to
`versions_by_date`, invert the tracker, optionally collapse pre-releases,
and trim.  `is_pre` stands for `self.pre_release_tag_re.search` and
`strip` for `self._strip_pre_release` (total here: the scan would already
have failed on a misconfigured pattern). -/
def notes_by_version_post (is_pre : String → Bool) (strip : String → String)
    (collapse_pre_releases : Bool) (earliest_version : Option String)
    (current_version : String) (versions_by_date : List String)
    (tracker : ChangeTracker) : List (String × List (String × Option String)) :=
  let versions_by_date :=
    if current_version ∈ versions_by_date then versions_by_date
    else current_version :: versions_by_date
  let versions_by_date := "*working-copy*" :: versions_by_date
  let files_and_tags := invert_tracker tracker
  let files_and_tags :=
    if collapse_pre_releases then
      collapse_buckets is_pre strip versions_by_date files_and_tags
    else files_and_tags
  trim_output earliest_version files_and_tags versions_by_date

/-- Modelled from the spec: whether one bucket entry is named by the
`ignore_notes` option.  The consumption of `ignore_notes` is absent from
`src/reno/scanner.py` (the option is only declared in `reno/config.py`
and plumbed through `reno/sphinxext.py`); per the spec — "Notes listed in
the configuration option `ignore_notes` (by filename or UID) are filtered
from the final buckets" / "List of UIDs or basenames to drop from
output" — an entry is listed exactly when its basename or its UID appears
in the configured list. -/
def ignore_listed (ignore_notes : List String) (entry : String × Option String) : Bool :=
  decide (String.mk (basenameL entry.1.data) ∈ ignore_notes) ||
    decide (get_unique_id entry.1 ∈ ignore_notes)

/-- Modelled from the spec: drop the listed entries from every final
bucket. -/
def apply_ignore_notes (ignore_notes : List String)
    (result : List (String × List (String × Option String))) :
    List (String × List (String × Option String)) :=
  result.map (fun vb => (vb.1, vb.2.filter (fun e => !ignore_listed ignore_notes e)))

/-- `get_notes_by_version` with the spec-modelled `ignore_notes`
filtering applied to its final buckets. -/
def notes_by_version_with_ignore (is_pre : String → Bool) (strip : String → String)
    (collapse_pre_releases : Bool) (earliest_version : Option String)
    (current_version : String) (versions_by_date : List String)
    (tracker : ChangeTracker) (ignore_notes : List String) :
    List (String × List (String × Option String)) :=
  apply_ignore_notes ignore_notes
    (notes_by_version_post is_pre strip collapse_pre_releases earliest_version
      current_version versions_by_date tracker)

/-- Walker of a small repository whose default branch is `main`
(`c0 ← c1 ← c2`) with a series branch `stable/a` (`c0 ← c1 ← c3`) and no
`master` ref at all: resolving `master` raises `ValueError` in
`Scanner._get_ref`. -/
def c3_walk (name : String) : Except ScanError (List String) :=
  if name = "main" then .ok ["c2", "c1", "c0"]
  else if name = "stable/a" then .ok ["c3", "c1", "c0"]
  else .error .unknownRef

/-- Tags of that repository: `1.0.0` sits on `c1`, the branch point. -/
def c3_tags (c : String) : List String :=
  if c = "c1" then ["1.0.0"] else []

/-- C3: `Scanner._get_branch_base` does **not** use the configured
`default_branch`: it walks the literal branch name `'master'`
(scanner.py line 625), so on a repository whose configured default branch
is `main` (and which has no `master` ref) it raises the unknown-reference
error, while the computation the spec and the `default_branch` option
documentation describe finds the base tag `1.0.0`. -/
theorem C3_branch_base_ignores_default_branch :
    get_branch_base c3_walk c3_tags "stable/a" = .error .unknownRef ∧
    get_branch_base_spec "main" c3_walk c3_tags "stable/a" = .ok (some "1.0.0") := by
  decide

/-- C4, counterexample: with the default regexes, `earliest_version =
"1.0.0"` and `versions_by_date = ["1.0.1", "1.0.0", "1.0.0.2", "0.9.0"]`
(with collapsing on, scanning the default branch), the first entry after
`1.0.0` whose canonical version — pre-release suffix stripped — differs
from `1.0.0` is the four-component release tag `1.0.0.2`; but the code
compares `_parse_version` triples, `[1,0,0] = [1,0,0]`, skips `1.0.0.2`
and returns `0.9.0`. -/
theorem C4_counterexample :
    find_scan_stop_point default_is_pre_release (fun _ => (none : Option String))
      (fun _ => (none : Option String))
      (some "1.0.0") ["1.0.1", "1.0.0", "1.0.0.2", "0.9.0"] true none = some "0.9.0" ∧
    (["1.0.1", "1.0.0", "1.0.0.2", "0.9.0"].drop 2).find?
      (fun c => decide (strip_pre_release_default c ≠ strip_pre_release_default "1.0.0")) =
      some "1.0.0.2" ∧
    ("0.9.0" : String) ≠ "1.0.0.2" := by
  decide

/-- The tracker operations of a history with two note files added under
version `1.0.0`; the path order and the UID order disagree. -/
def c2_ops : List TrackerOp :=
  [.add "releasenotes/notes/a-1111111111111111.yaml" (some "s1") "1.0.0",
   .add "releasenotes/notes/z-0000000000000000.yaml" (some "s2") "1.0.0"]

/-- Ascending-by-UID check on a bucket, as claimed by the spec. -/
def sortedByUid : List (String × Option String) → Bool
  | [] => true
  | [_] => true
  | a :: b :: rest =>
    strLe (get_unique_id a.1) (get_unique_id b.1) && sortedByUid (b :: rest)

/-- C2, counterexample: the trimming pass runs Python `sorted` on the
`(path, sha)` tuples, so the bucket for `1.0.0` lists
`a-1111111111111111.yaml` (UID `1111111111111111`) before
`z-0000000000000000.yaml` (UID `0000000000000000`): path order, not the
ascending UID order the spec states. -/
theorem C2_counterexample :
    notes_by_version_post default_is_pre_release strip_pre_release_default false none
        "1.0.0" ["1.0.0"] (applyOps c2_ops) =
      [("1.0.0",
        [("releasenotes/notes/a-1111111111111111.yaml", some "s1"),
         ("releasenotes/notes/z-0000000000000000.yaml", some "s2")])] ∧
    sortedByUid
      [("releasenotes/notes/a-1111111111111111.yaml", some "s1"),
       ("releasenotes/notes/z-0000000000000000.yaml", some "s2")] = false := by
  decide

/-- C9: `_strip_pre_release` returns the tag with the `pre_release` group
span removed when the pre-release regex matches, the tag unchanged when
it does not match, and fails with the misconfigured-regex error exactly
when the regex matches but exposes no group named `pre_release`. -/
theorem C9_strip_pre_release_cases :
    ∀ (search : String → Option PreReleaseMatch) (tag : String),
      (search tag = none → strip_pre_release search tag = .ok tag) ∧
      (∀ s e, search tag = some ⟨some (s, e)⟩ →
        strip_pre_release search tag = .ok (String.mk (tag.data.take s ++ tag.data.drop e))) ∧
      (strip_pre_release search tag = .error .misconfiguredRegex ↔ search tag = some ⟨none⟩) := by
  intro search tag
  refine ⟨?_, ?_, ?_⟩
  · intro h; simp [strip_pre_release, h]
  · intro s e h; simp [strip_pre_release, h]
  · constructor
    · intro h
      cases hs : search tag with
      | none => simp [strip_pre_release, hs] at h
      | some m =>
        cases hm : m.pre_release with
        | none => cases m; simp_all
        | some p =>
          rcases p with ⟨s, e⟩
          simp [strip_pre_release, hs, hm] at h
    · intro h; simp [strip_pre_release, h]

/-- Witness for C9 on the default pattern: `12.0.0.0rc1` matches with the
group spanning `.0rc1`, which is stripped to give the canonical
`12.0.0`. -/
theorem C9_strip_pre_release_cases_witness :
    strip_pre_release default_pre_release_search "12.0.0.0rc1" = .ok "12.0.0" :=
  ((C9_strip_pre_release_cases default_pre_release_search "12.0.0.0rc1").2.1 6 11
    (by decide)).trans (by decide)

/-- C4 (amended): on the default branch, when `earliest_version` is
present in `versions_by_date` and is not a pre-release (or collapsing is
on), `_find_scan_stop_point` returns the first entry after
`earliest_version` whose `_parse_version` value — the first three
dot-separated components, each an int when parseable — differs from
`earliest_version`'s, and `none` when no such entry exists.  (The spec's
"canonical version differs" is what fails: see the counterexample.) -/
theorem C4_stop_point_first_differing_parse :
    ∀ (is_pre : String → Bool) (geb bb : String → Option String)
      (ev : String) (vbd : List String) (collapse : Bool)
      (branch : Option String) (i : Nat),
      branch = none ∨ branch = some "master" →
      vbd.indexOf? ev = some i →
      ¬ (is_pre ev = true ∧ collapse = false) →
      find_scan_stop_point is_pre geb bb (some ev) vbd collapse branch =
        (vbd.drop (i + 1)).find? (fun c => parse_version c ≠ parse_version ev) := by
  intro is_pre geb bb ev vbd collapse branch i hbr hidx hpre
  have hc : ¬ (is_pre ev = true ∧ ¬ collapse = true) := by
    rintro ⟨h1, h2⟩
    exact hpre ⟨h1, by cases collapse <;> simp_all⟩
  rcases hbr with rfl | rfl
  · simp only [find_scan_stop_point, hidx]
    rw [if_neg (by simp), if_neg hc]
  · simp only [find_scan_stop_point, hidx]
    rw [if_neg (by simp), if_neg hc]

/-- Witness for the amended C4: earliest `2.0.0` in `["2.0.0", "1.0.0"]`
on the current branch stops at `1.0.0`. -/
theorem C4_stop_point_first_differing_parse_witness :
    find_scan_stop_point default_is_pre_release (fun _ => (none : Option String))
      (fun _ => (none : Option String)) (some "2.0.0") ["2.0.0", "1.0.0"] true none =
      some "1.0.0" :=
  (C4_stop_point_first_differing_parse default_is_pre_release
    (fun _ => (none : Option String)) (fun _ => (none : Option String))
    "2.0.0" ["2.0.0", "1.0.0"] true none 0 (Or.inl rfl) (by decide)
    (by decide)).trans (by decide)

theorem sorted_of_mem_trim :
    ∀ (e : Option String) (ft : List (String × List (String × Option String)))
      (vs : List String) (vb : String × List (String × Option String)),
      vb ∈ trim_output e ft vs → List.Sorted pairLe vb.2 := by
  intro e ft vs
  induction vs with
  | nil => intro vb h; simp [trim_output] at h
  | cons ov rest ih =>
    intro vb h
    cases hl : ft.lookup ov with
    | none =>
      simp only [trim_output, hl] at h
      exact ih vb h
    | some bucket =>
      cases bucket with
      | nil =>
        simp only [trim_output, hl] at h
        exact ih vb h
      | cons b bs =>
        simp only [trim_output, hl] at h
        rcases List.mem_cons.mp h with hv | h2
        · rw [hv]
          exact List.sorted_insertionSort pairLe (b :: bs)
        · by_cases he : e = some ov
          · simp [he] at h2
          · exact ih vb (by simpa [he] using h2)

/-- C2 (amended): every bucket produced by the trimming pass of
`get_notes_by_version` is sorted ascending by Python tuple comparison on
the whole `(path, commit-id)` pairs — i.e. lexicographically by path —
not by the extracted 16-character UID (see the counterexample). -/
theorem C2_buckets_sorted_pairs :
    ∀ (is_pre : String → Bool) (strip : String → String) (collapse : Bool)
      (earliest : Option String) (current : String) (vbd : List String)
      (tracker : ChangeTracker) (vb : String × List (String × Option String)),
      vb ∈ notes_by_version_post is_pre strip collapse earliest current vbd tracker →
      List.Sorted pairLe vb.2 := by
  intro is_pre strip collapse earliest current vbd tracker vb h
  simp only [notes_by_version_post] at h
  exact sorted_of_mem_trim _ _ _ _ h

/-- Witness for the amended C2 on the two-note history: the emitted
bucket is sorted under the pair order. -/
theorem C2_buckets_sorted_pairs_witness :
    List.Sorted pairLe
      [("releasenotes/notes/a-1111111111111111.yaml", some "s1"),
       ("releasenotes/notes/z-0000000000000000.yaml", some "s2")] :=
  C2_buckets_sorted_pairs default_is_pre_release strip_pre_release_default false none
    "1.0.0" ["1.0.0"] (applyOps c2_ops)
    ("1.0.0",
      [("releasenotes/notes/a-1111111111111111.yaml", some "s1"),
       ("releasenotes/notes/z-0000000000000000.yaml", some "s2")])
    (by decide)

/-- C1: with the spec-modelled `ignore_notes` filtering in place, no
final bucket keeps an entry whose basename or UID is listed, and every
entry of the unfiltered result that is not listed survives in the bucket
of the same version. -/
theorem C1_ignore_notes_filtered :
    ∀ (is_pre : String → Bool) (strip : String → String) (collapse : Bool)
      (earliest : Option String) (current : String) (vbd : List String)
      (tracker : ChangeTracker) (ignore_notes : List String),
      (∀ vb ∈ notes_by_version_with_ignore is_pre strip collapse earliest current
          vbd tracker ignore_notes,
        ∀ e ∈ vb.2,
          String.mk (basenameL e.1.data) ∉ ignore_notes ∧
          get_unique_id e.1 ∉ ignore_notes) ∧
      (∀ vb ∈ notes_by_version_post is_pre strip collapse earliest current vbd tracker,
        ∀ e ∈ vb.2, ignore_listed ignore_notes e = false →
          ∃ vb' ∈ notes_by_version_with_ignore is_pre strip collapse earliest current
              vbd tracker ignore_notes,
            vb'.1 = vb.1 ∧ e ∈ vb'.2) := by
  intro is_pre strip collapse earliest current vbd tracker ignore_notes
  constructor
  · intro vb hvb e he
    rcases List.mem_map.mp hvb with ⟨vb0, _, hmap⟩
    rw [← hmap] at he
    have := (List.mem_filter.mp he).2
    simp only [ignore_listed, Bool.not_eq_eq_eq_not, Bool.not_true] at this
    constructor
    · intro hmem
      simp [ignore_listed, hmem] at this
    · intro hmem
      simp [ignore_listed, hmem] at this
  · intro vb hvb e he hnot
    refine ⟨(vb.1, vb.2.filter (fun x => !ignore_listed ignore_notes x)), ?_, rfl, ?_⟩
    · exact List.mem_map.mpr ⟨vb, hvb, rfl⟩
    · exact List.mem_filter.mpr ⟨he, by simp [hnot]⟩

/-- Witness for C1: ignoring `z-0000000000000000.yaml` by UID keeps the
other note and drops that one. -/
theorem C1_ignore_notes_filtered_witness :
    String.mk (basenameL ("releasenotes/notes/a-1111111111111111.yaml" : String).data) ∉
        ["0000000000000000"] ∧
      get_unique_id "releasenotes/notes/a-1111111111111111.yaml" ∉ ["0000000000000000"] :=
  (C1_ignore_notes_filtered default_is_pre_release strip_pre_release_default false none
      "1.0.0" ["1.0.0"] (applyOps c2_ops) ["0000000000000000"]).1
    ("1.0.0", [("releasenotes/notes/a-1111111111111111.yaml", some "s1")])
    (by decide)
    ("releasenotes/notes/a-1111111111111111.yaml", some "s1")
    (by decide)

/-- C7: a commit whose note-file changes are exactly one ADD and one
DELETE sharing a UID yields a single RENAME result whose old path is the
deleted path and whose new path is the added path, carrying the commit
id; the taint set is untouched. -/
theorem C7_add_delete_pair_is_rename :
    ∀ (deleted_bad_uids : List String) (sha pa pd u : String),
      note_file (some pa) = true → note_file (some pd) = true →
      get_unique_id pa = u → get_unique_id pd = u →
      aggregate_changes deleted_bad_uids sha
          [[⟨.add, none, some pa⟩], [⟨.delete, some pd, none⟩]] =
        .ok (deleted_bad_uids, [⟨u, .rename, some pd, pa, sha⟩]) := by
  intro d sha pa pd u hpa hpd hupa hupd
  simp [aggregate_changes, collect_by_uid, byUidAdd, alAppendAt, List.lookup,
    hpa, hpd, hupa, hupd, process_groups, process_group, typesExactly,
    List.insertionSort, List.orderedInsert]

theorem map_singleton_flatten (l : List String) :
    (l.map fun p => [(⟨.add, none, some p⟩ : TreeChange)]).flatten =
      l.map fun p => ⟨.add, none, some p⟩ := by
  induction l with
  | nil => rfl
  | cons q qs ihq => simp [ihq]

/-- Bucketing a run of all-ADD note files with one shared UID onto an
existing group for that UID. -/
theorem collect_adds_aux :
    ∀ (ps : List String) (u : String) (acc : List (CType × String)),
      (∀ p ∈ ps, note_file (some p) = true ∧ get_unique_id p = u) →
      collect_by_uid [(u, acc)] (ps.map fun p => ⟨.add, none, some p⟩) =
        .ok [(u, acc ++ ps.map (fun p => (CType.add, p)))] := by
  intro ps
  induction ps with
  | nil => intro u acc _; simp [collect_by_uid]
  | cons p ps ih =>
    intro u acc hall
    have hp := hall p (by simp)
    have hrest : ∀ q ∈ ps, note_file (some q) = true ∧ get_unique_id q = u :=
      fun q hq => hall q (by simp [hq])
    calc collect_by_uid [(u, acc)] ((p :: ps).map fun p => ⟨.add, none, some p⟩)
        = collect_by_uid [(u, acc ++ [(CType.add, p)])]
            (ps.map fun p => ⟨.add, none, some p⟩) := by
          simp [collect_by_uid, hp.1, hp.2, byUidAdd, List.lookup, alAppendAt]
      _ = .ok [(u, (acc ++ [(CType.add, p)]) ++ ps.map (fun p => (CType.add, p)))] :=
          ih u (acc ++ [(CType.add, p)]) hrest
      _ = .ok [(u, acc ++ (p :: ps).map (fun p => (CType.add, p)))] := by simp

/-- The multi-ADD dispatch: a group of two or more entries, all ADDs, is
dropped silently when the UID is tainted and raises otherwise. -/
theorem process_group_all_adds :
    ∀ (d : List String) (sha u : String) (e1 e2 : CType × String)
      (tl : List (CType × String)),
      (∀ x ∈ e1 :: e2 :: tl, x.1 = CType.add) →
      process_group d sha u (e1 :: e2 :: tl) =
        if u ∈ d then .ok (d, []) else .error (.duplicateUIDAdd u) := by
  intro d sha u e1 e2 tl hall
  have hadd : ((e1 :: e2 :: tl).any fun e => decide (e.1 = CType.add)) = true := by
    simp only [List.any_eq_true, decide_eq_true_eq]
    exact ⟨e1, by simp, hall e1 (by simp)⟩
  have hother : ∀ t : CType, ¬ t = CType.add →
      ((e1 :: e2 :: tl).any fun e => decide (e.1 = t)) = false := by
    intro t ht
    simp only [List.any_eq_false, decide_eq_true_eq]
    intro x hx
    rw [hall x hx]
    exact fun h => ht h.symm
  have hD := hother CType.delete (by decide)
  have hM := hother CType.modify (by decide)
  have hR := hother CType.rename (by decide)
  have hC := hother CType.copy (by decide)
  have hU := hother CType.unchanged (by decide)
  have t1 : typesExactly (e1 :: e2 :: tl) [.add, .delete] = false := by
    simp only [typesExactly, List.all_cons, List.all_nil, hadd, hD, hM, hR, hC, hU]
    decide
  have t2 : typesExactly (e1 :: e2 :: tl) [.modify] = false := by
    simp only [typesExactly, List.all_cons, List.all_nil, hadd, hD, hM, hR, hC, hU]
    decide
  have t3 : typesExactly (e1 :: e2 :: tl) [.delete] = false := by
    simp only [typesExactly, List.all_cons, List.all_nil, hadd, hD, hM, hR, hC, hU]
    decide
  have t4 : typesExactly (e1 :: e2 :: tl) [.add] = true := by
    simp only [typesExactly, List.all_cons, List.all_nil, hadd, hD, hM, hR, hC, hU]
    decide
  simp only [process_group, t1, t2, t3, t4]
  by_cases hu : u ∈ d <;> simp [hu]

/-- C8: a commit containing two or more ADDs (and nothing else) for one
UID makes `aggregate_changes` raise the duplicate-UID error, unless the
UID is already in the taint set recorded by an earlier multi-DELETE
commit, in which case the entries are silently dropped and no result
entry is produced. -/
theorem C8_duplicate_add_error_unless_tainted :
    ∀ (deleted_bad_uids : List String) (sha u p1 p2 : String) (rest : List String),
      (∀ p ∈ p1 :: p2 :: rest, note_file (some p) = true ∧ get_unique_id p = u) →
      (u ∉ deleted_bad_uids →
        aggregate_changes deleted_bad_uids sha
            ((p1 :: p2 :: rest).map fun p => [⟨.add, none, some p⟩]) =
          .error (.duplicateUIDAdd u)) ∧
      (u ∈ deleted_bad_uids →
        aggregate_changes deleted_bad_uids sha
            ((p1 :: p2 :: rest).map fun p => [⟨.add, none, some p⟩]) =
          .ok (deleted_bad_uids, [])) := by
  intro d sha u p1 p2 rest hall
  have hflat : (((p1 :: p2 :: rest).map fun p => [(⟨.add, none, some p⟩ : TreeChange)]).flatten) =
      (p1 :: p2 :: rest).map fun p => ⟨.add, none, some p⟩ :=
    map_singleton_flatten (p1 :: p2 :: rest)
  have h1 := hall p1 (by simp)
  have hcoll : collect_by_uid [] ((p1 :: p2 :: rest).map fun p => ⟨.add, none, some p⟩) =
      .ok [(u, (p1 :: p2 :: rest).map fun p => (CType.add, p))] := by
    calc collect_by_uid [] ((p1 :: p2 :: rest).map fun p => ⟨.add, none, some p⟩)
        = collect_by_uid [(u, [(CType.add, p1)])]
            ((p2 :: rest).map fun p => ⟨.add, none, some p⟩) := by
          simp [collect_by_uid, h1.1, h1.2, byUidAdd, List.lookup]
      _ = .ok [(u, [(CType.add, p1)] ++ (p2 :: rest).map (fun p => (CType.add, p)))] :=
          collect_adds_aux (p2 :: rest) u [(CType.add, p1)]
            (fun q hq => hall q (by simp [List.mem_cons] at hq ⊢; tauto))
      _ = .ok [(u, (p1 :: p2 :: rest).map fun p => (CType.add, p))] := by simp
  have hgroup : process_group d sha u ((p1 :: p2 :: rest).map fun p => (CType.add, p)) =
      if u ∈ d then .ok (d, []) else .error (.duplicateUIDAdd u) := by
    simp only [List.map_cons]
    exact process_group_all_adds d sha u _ _ _ (by
      intro x hx
      simp only [← List.map_cons] at hx
      rcases List.mem_map.mp hx with ⟨p, _, rfl⟩
      rfl)
  constructor
  · intro hu
    simp only [aggregate_changes, hflat, hcoll, List.insertionSort,
      List.orderedInsert, process_groups, hgroup, if_neg hu]
  · intro hu
    simp only [aggregate_changes, hflat, hcoll, List.insertionSort,
      List.orderedInsert, process_groups, hgroup, if_pos hu]
    simp

/-- Witness for C7: renaming `old-…`→`new-…` in commit `c9`. -/
theorem C7_add_delete_pair_is_rename_witness :
    aggregate_changes [] "c9"
        [[⟨.add, none, some "new-0123456789abcdef.yaml"⟩],
         [⟨.delete, some "old-0123456789abcdef.yaml", none⟩]] =
      .ok ([], [⟨"0123456789abcdef", .rename, some "old-0123456789abcdef.yaml",
                 "new-0123456789abcdef.yaml", "c9"⟩]) :=
  C7_add_delete_pair_is_rename [] "c9" "new-0123456789abcdef.yaml"
    "old-0123456789abcdef.yaml" "0123456789abcdef"
    (by decide) (by decide) (by decide) (by decide)

/-- Witness for C8: two adds sharing UID `0123456789abcdef` with an empty
taint set raise the duplicate error. -/
theorem C8_duplicate_add_error_unless_tainted_witness :
    aggregate_changes [] "c9"
        (("x-0123456789abcdef.yaml" :: "y-0123456789abcdef.yaml" :: []).map
          fun p => [⟨.add, none, some p⟩]) =
      .error (.duplicateUIDAdd "0123456789abcdef") :=
  (C8_duplicate_add_error_unless_tainted [] "c9" "0123456789abcdef"
    "x-0123456789abcdef.yaml" "y-0123456789abcdef.yaml" [] (by decide)).1 (by decide)

theorem mem_setAdd {s : List String} {x y : String} :
    y ∈ setAdd s x ↔ y ∈ s ∨ y = x := by
  by_cases h : x ∈ s
  · simp only [setAdd, if_pos h]
    constructor
    · exact Or.inl
    · rintro (hy | rfl)
      · exact hy
      · exact h
  · simp [setAdd, if_neg h, List.mem_append]

theorem mem_foldl_setAdd :
    ∀ (l s : List String) (y : String), y ∈ l.foldl setAdd s ↔ y ∈ s ∨ y ∈ l := by
  intro l
  induction l with
  | nil => simp
  | cons x xs ih =>
    intro s y
    rw [List.foldl_cons, ih, mem_setAdd]
    simp [or_assoc, or_comm, or_left_comm]

/-- C6: while `ignore_null_merges` is on, a merge node at the top of the
stack with at least two parents, some non-first parent carrying a version
tag, and an empty change list (its tree introduces nothing over the first
parent) is handled by marking the merge and all its non-first parents as
emitted, yielding nothing, and continuing the traversal at the first
parent. -/
theorem C6_null_merge_elision :
    ∀ (all : String → WalkEntry) (children : String → List String)
      (valid_tags : String → List String) (sha : String)
      (rest emitted : List String) (fp : String) (ps : List String),
      (all sha).parents = fp :: ps →
      ps ≠ [] →
      (ps.any fun p => !(valid_tags p).isEmpty) = true →
      (all sha).changes = [] →
      topo_step all children valid_tags true ⟨sha :: rest, emitted⟩ =
          some (⟨if fp ∈ rest then rest else fp :: rest,
                 setAdd (ps.foldl setAdd emitted) sha⟩, none) ∧
        sha ∈ setAdd (ps.foldl setAdd emitted) sha ∧
        ∀ p ∈ ps, p ∈ setAdd (ps.foldl setAdd emitted) sha := by
  intro all children valid_tags sha rest emitted fp ps hpar hps hany hch
  refine ⟨?_, ?_, ?_⟩
  · have hd : decide (1 < (all sha).parents.length) = true := by
      rw [hpar]
      simp only [List.length_cons, decide_eq_true_eq]
      have := List.length_pos.mpr hps
      omega
    have hanyc : ((all sha).parents.tail.any
        fun p => !(valid_tags p).isEmpty && (all sha).changes.isEmpty) = true := by
      rw [hpar, hch]
      simp only [List.tail_cons, List.isEmpty_nil, Bool.and_true]
      exact hany
    simp only [topo_step, hd, hanyc, hpar, hch, List.tail_cons, Bool.and_true,
      Bool.true_and, List.isEmpty_nil, if_true]
    have hd2 : decide (1 < (fp :: ps).length) = true := by
      simp only [List.length_cons, decide_eq_true_eq]
      have := List.length_pos.mpr hps
      omega
    rw [hd2, hany]
    simp
  · exact mem_setAdd.mpr (Or.inr rfl)
  · intro p hp
    exact mem_setAdd.mpr (Or.inl ((mem_foldl_setAdd ps emitted p).mpr (Or.inr hp)))

/-- A five-commit graph with a null merge `m` of `p0` (mainline) and
`p1` (tagged side branch). -/
def c6_all (s : String) : WalkEntry :=
  if s = "m" then ⟨"m", ["p0", "p1"], []⟩ else ⟨s, [], []⟩

/-- Tags of that graph: the merged-in parent `p1` carries `2.0.0`. -/
def c6_tags (s : String) : List String :=
  if s = "p1" then ["2.0.0"] else []

/-- Witness for C6: the step on `m` emits nothing, marks `p1` and `m`,
and stacks the first parent `p0`. -/
theorem C6_null_merge_elision_witness :
    topo_step c6_all (fun _ => []) c6_tags true ⟨["m"], []⟩ =
      some (⟨["p0"], ["p1", "m"]⟩, none) :=
  ((C6_null_merge_elision c6_all (fun _ => []) c6_tags "m" [] [] "p0" ["p1"]
    (by decide) (by decide) (by decide) (by decide)).1).trans (by decide)

theorem lookup_mem {β : Type} :
    ∀ (l : List (String × β)) (w : String) (e : β), l.lookup w = some e → (w, e) ∈ l := by
  intro l
  induction l with
  | nil => intro w e h; simp [List.lookup] at h
  | cons a t ih =>
    intro w e h
    cases a with
    | mk k v =>
      by_cases hk : (w == k) = true
      · have hwk : w = k := by simpa using hk
        simp only [List.lookup, hk] at h
        simp only [Option.some.injEq] at h
        simp [hwk, h]
      · have hk' : (w == k) = false := by simpa using hk
        simp only [List.lookup, hk'] at h
        exact List.mem_cons_of_mem _ (ih w e h)

theorem lookup_append_single {β : Type} :
    ∀ (l : List (String × β)) (w u : String) (x : β), ¬ u = w →
      (l ++ [(w, x)]).lookup u = l.lookup u := by
  intro l w u x h
  have hw : (u == w) = false := by simpa using h
  induction l with
  | nil => simp [List.lookup, hw]
  | cons a t ih =>
    cases a with
    | mk k v =>
      simp only [List.cons_append, List.lookup]
      cases hk : u == k <;> simp [ih]

theorem common_last_name (t : ChangeTracker) (u v : String) :
    (t.common u v).last_name_by_id = t.last_name_by_id := rfl

theorem common_deleted (t : ChangeTracker) (u v : String) :
    (t.common u v).uniqueids_deleted = t.uniqueids_deleted := rfl

/-- `rename` performs the same state change as `add`. -/
theorem rename_eq_add : ChangeTracker.rename = ChangeTracker.add := rfl

/-- `modify` performs the same state change as `add`. -/
theorem modify_eq_add : ChangeTracker.modify = ChangeTracker.add := rfl

/-- An `add` for another UID leaves `u`'s recorded name and deleted
status alone. -/
theorem add_untouched (t : ChangeTracker) (f : String) (sha : Option String) (v u : String)
    (h : ¬ get_unique_id f = u) :
    (t.add f sha v).last_name_by_id.lookup u = t.last_name_by_id.lookup u ∧
    (u ∈ (t.add f sha v).uniqueids_deleted ↔ u ∈ t.uniqueids_deleted) := by
  simp only [ChangeTracker.add, common_last_name, common_deleted]
  split
  · exact ⟨rfl, Iff.rfl⟩
  · split
    · exact ⟨rfl, Iff.rfl⟩
    · exact ⟨lookup_append_single _ _ _ _ (fun hh => h hh.symm), Iff.rfl⟩

/-- A `delete` for another UID leaves `u`'s recorded name and deleted
status alone. -/
theorem delete_untouched (t : ChangeTracker) (f : String) (sha : Option String) (v u : String)
    (h : ¬ get_unique_id f = u) :
    (t.delete f sha v).last_name_by_id.lookup u = t.last_name_by_id.lookup u ∧
    (u ∈ (t.delete f sha v).uniqueids_deleted ↔ u ∈ t.uniqueids_deleted) := by
  simp only [ChangeTracker.delete, common_last_name, common_deleted]
  split
  · refine ⟨rfl, ?_⟩
    rw [mem_setAdd]
    constructor
    · rintro (hy | rfl)
      · exact hy
      · exact absurd rfl h
    · exact Or.inl
  · exact ⟨rfl, Iff.rfl⟩

/-- Any operation for another UID leaves `u` alone. -/
theorem applyOp_untouched (t : ChangeTracker) (op : TrackerOp) (u : String)
    (h : ¬ op.uid = u) :
    (applyOp t op).last_name_by_id.lookup u = t.last_name_by_id.lookup u ∧
    (u ∈ (applyOp t op).uniqueids_deleted ↔ u ∈ t.uniqueids_deleted) := by
  cases op with
  | add f sha v => exact add_untouched t f sha v u h
  | rename f sha v =>
    rw [show applyOp t (.rename f sha v) = t.add f sha v from congrFun (congrFun (congrFun rename_eq_add t) f) sha ▸ rfl]
    exact add_untouched t f sha v u h
  | modify f sha v =>
    rw [show applyOp t (.modify f sha v) = t.add f sha v from congrFun (congrFun (congrFun modify_eq_add t) f) sha ▸ rfl]
    exact add_untouched t f sha v u h
  | delete f sha v => exact delete_untouched t f sha v u h

/-- Once `u` is in the deleted set with no recorded name, every further
operation keeps it that way. -/
theorem applyOp_preserve (t : ChangeTracker) (op : TrackerOp) (u : String)
    (h1 : u ∈ t.uniqueids_deleted) (h2 : t.last_name_by_id.lookup u = none) :
    u ∈ (applyOp t op).uniqueids_deleted ∧
    (applyOp t op).last_name_by_id.lookup u = none := by
  by_cases hop : op.uid = u
  · cases op with
    | add f sha v =>
      simp only [TrackerOp.uid, TrackerOp.filename] at hop
      simp only [applyOp, ChangeTracker.add, common_last_name, common_deleted]
      rw [if_pos (hop ▸ h1)]
      exact ⟨h1, h2⟩
    | rename f sha v =>
      simp only [TrackerOp.uid, TrackerOp.filename] at hop
      simp only [applyOp, rename_eq_add, ChangeTracker.add, common_last_name, common_deleted]
      rw [if_pos (hop ▸ h1)]
      exact ⟨h1, h2⟩
    | modify f sha v =>
      simp only [TrackerOp.uid, TrackerOp.filename] at hop
      simp only [applyOp, modify_eq_add, ChangeTracker.add, common_last_name, common_deleted]
      rw [if_pos (hop ▸ h1)]
      exact ⟨h1, h2⟩
    | delete f sha v =>
      simp only [TrackerOp.uid, TrackerOp.filename] at hop
      simp only [applyOp, ChangeTracker.delete, common_last_name, common_deleted]
      split
      · exact ⟨mem_setAdd.mpr (Or.inl h1), h2⟩
      · exact ⟨h1, h2⟩
  · have h := applyOp_untouched t op u hop
    exact ⟨h.2.mpr h1, h.1.trans h2⟩

theorem foldl_preserve :
    ∀ (ops : List TrackerOp) (t : ChangeTracker) (u : String),
      u ∈ t.uniqueids_deleted → t.last_name_by_id.lookup u = none →
      u ∈ (ops.foldl applyOp t).uniqueids_deleted ∧
      (ops.foldl applyOp t).last_name_by_id.lookup u = none := by
  intro ops
  induction ops with
  | nil => exact fun t u h1 h2 => ⟨h1, h2⟩
  | cons op rest ih =>
    intro t u h1 h2
    have h := applyOp_preserve t op u h1 h2
    exact ih (applyOp t op) u h.1 h.2

theorem foldl_untouched :
    ∀ (ops : List TrackerOp) (t : ChangeTracker) (u : String),
      (∀ op ∈ ops, ¬ op.uid = u) →
      (ops.foldl applyOp t).last_name_by_id.lookup u = t.last_name_by_id.lookup u ∧
      (u ∈ (ops.foldl applyOp t).uniqueids_deleted ↔ u ∈ t.uniqueids_deleted) := by
  intro ops
  induction ops with
  | nil => exact fun t u _ => ⟨rfl, Iff.rfl⟩
  | cons op rest ih =>
    intro t u hall
    have hop := applyOp_untouched t op u (hall op (by simp))
    have hrest := ih (applyOp t op) u (fun o ho => hall o (by simp [ho]))
    exact ⟨hrest.1.trans hop.1, hrest.2.trans hop.2⟩

/-- The disjointness step: an operation preserves "every recorded UID is
outside the deleted set". -/
theorem add_inv (t : ChangeTracker) (f : String) (sha : Option String) (v : String)
    (hInv : ∀ w, ((t.last_name_by_id.lookup w).isSome = true) → w ∉ t.uniqueids_deleted) :
    ∀ w, (((t.add f sha v).last_name_by_id.lookup w).isSome = true) →
      w ∉ (t.add f sha v).uniqueids_deleted := by
  intro w hw
  simp only [ChangeTracker.add, common_last_name, common_deleted] at hw ⊢
  by_cases c1 : get_unique_id f ∈ t.uniqueids_deleted
  · rw [if_pos c1] at hw ⊢
    exact hInv w hw
  · rw [if_neg c1] at hw ⊢
    by_cases c2 : (t.last_name_by_id.lookup (get_unique_id f)).isSome = true
    · rw [if_pos c2] at hw ⊢
      exact hInv w hw
    · rw [if_neg c2] at hw ⊢
      by_cases hwu : w = get_unique_id f
      · exact hwu ▸ c1
      · rw [lookup_append_single _ _ _ _ hwu] at hw
        exact hInv w hw

theorem delete_inv (t : ChangeTracker) (f : String) (sha : Option String) (v : String)
    (hInv : ∀ w, ((t.last_name_by_id.lookup w).isSome = true) → w ∉ t.uniqueids_deleted) :
    ∀ w, (((t.delete f sha v).last_name_by_id.lookup w).isSome = true) →
      w ∉ (t.delete f sha v).uniqueids_deleted := by
  intro w hw
  simp only [ChangeTracker.delete, common_last_name, common_deleted] at hw ⊢
  by_cases c : (t.last_name_by_id.lookup (get_unique_id f)).isNone = true
  · rw [if_pos c] at hw ⊢
    intro hmem
    rcases mem_setAdd.mp hmem with hmem | rfl
    · exact hInv w hw hmem
    · rw [Option.isNone_iff_eq_none] at c
      rw [c] at hw
      simp at hw
  · rw [if_neg c] at hw ⊢
    exact hInv w hw

theorem applyOp_inv (t : ChangeTracker) (op : TrackerOp)
    (hInv : ∀ w, ((t.last_name_by_id.lookup w).isSome = true) → w ∉ t.uniqueids_deleted) :
    ∀ w, (((applyOp t op).last_name_by_id.lookup w).isSome = true) →
      w ∉ (applyOp t op).uniqueids_deleted := by
  cases op with
  | add f sha v => exact add_inv t f sha v hInv
  | rename f sha v =>
    simp only [applyOp, rename_eq_add]
    exact add_inv t f sha v hInv
  | modify f sha v =>
    simp only [applyOp, modify_eq_add]
    exact add_inv t f sha v hInv
  | delete f sha v => exact delete_inv t f sha v hInv

theorem foldl_inv :
    ∀ (ops : List TrackerOp) (t : ChangeTracker),
      (∀ w, ((t.last_name_by_id.lookup w).isSome = true) → w ∉ t.uniqueids_deleted) →
      ∀ w, (((ops.foldl applyOp t).last_name_by_id.lookup w).isSome = true) →
        w ∉ (ops.foldl applyOp t).uniqueids_deleted := by
  intro ops
  induction ops with
  | nil => exact fun t h => h
  | cons op rest ih => exact fun t h => ih (applyOp t op) (applyOp_inv t op h)

/-- C10: after any sequence of operations on a fresh tracker, a UID with
a recorded name in `last_name_by_id` is never in `uniqueids_deleted`
(the invariant holds after every prefix, since a prefix is itself such a
sequence). -/
theorem C10_recorded_and_deleted_disjoint :
    ∀ (ops : List TrackerOp) (u : String),
      (((applyOps ops).last_name_by_id.lookup u).isSome = true) →
      u ∉ (applyOps ops).uniqueids_deleted := by
  intro ops u
  exact foldl_inv ops ChangeTracker.init
    (by intro w hw; simp [ChangeTracker.init, List.lookup] at hw) u

/-- A short real history: one note added, a different note deleted. -/
def c10_ops : List TrackerOp :=
  [.add "releasenotes/notes/one-1234123412341234.yaml" (some "c1") "1.0.0",
   .delete "releasenotes/notes/two-aaaabbbbccccdddd.yaml" (some "c2") "1.0.0"]

/-- Witness for C10: UID `1234123412341234` has a recorded name after
`c10_ops`, so it is not in the deleted set. -/
theorem C10_recorded_and_deleted_disjoint_witness :
    "1234123412341234" ∉ (applyOps c10_ops).uniqueids_deleted :=
  C10_recorded_and_deleted_disjoint c10_ops "1234123412341234" (by decide)

/-- Recorded names always sit under their own UID (`add` stores
`(filename, sha)` under `get_unique_id filename`). -/
theorem add_names (t : ChangeTracker) (f : String) (sha : Option String) (v : String)
    (h : ∀ w fn sh, (w, (fn, sh)) ∈ t.last_name_by_id → get_unique_id fn = w) :
    ∀ w fn sh, (w, (fn, sh)) ∈ (t.add f sha v).last_name_by_id → get_unique_id fn = w := by
  simp only [ChangeTracker.add, common_last_name, common_deleted]
  intro w fn sh
  split
  · exact h w fn sh
  · split
    · exact h w fn sh
    · intro hmem
      rcases List.mem_append.mp hmem with hm | hm
      · exact h w fn sh hm
      · simp only [List.mem_singleton, Prod.mk.injEq] at hm
        obtain ⟨h1, h2, -⟩ := hm
        rw [h2, h1]

theorem delete_names (t : ChangeTracker) (f : String) (sha : Option String) (v : String)
    (h : ∀ w fn sh, (w, (fn, sh)) ∈ t.last_name_by_id → get_unique_id fn = w) :
    ∀ w fn sh, (w, (fn, sh)) ∈ (t.delete f sha v).last_name_by_id → get_unique_id fn = w := by
  simp only [ChangeTracker.delete, common_last_name, common_deleted]
  intro w fn sh
  split
  · exact h w fn sh
  · exact h w fn sh

theorem applyOp_names (t : ChangeTracker) (op : TrackerOp)
    (h : ∀ w fn sh, (w, (fn, sh)) ∈ t.last_name_by_id → get_unique_id fn = w) :
    ∀ w fn sh, (w, (fn, sh)) ∈ (applyOp t op).last_name_by_id → get_unique_id fn = w := by
  cases op with
  | add f sha v => exact add_names t f sha v h
  | rename f sha v =>
    simp only [applyOp, rename_eq_add]
    exact add_names t f sha v h
  | modify f sha v =>
    simp only [applyOp, modify_eq_add]
    exact add_names t f sha v h
  | delete f sha v => exact delete_names t f sha v h

theorem foldl_names :
    ∀ (ops : List TrackerOp) (t : ChangeTracker),
      (∀ w fn sh, (w, (fn, sh)) ∈ t.last_name_by_id → get_unique_id fn = w) →
      ∀ w fn sh, (w, (fn, sh)) ∈ (ops.foldl applyOp t).last_name_by_id →
        get_unique_id fn = w := by
  intro ops
  induction ops with
  | nil => exact fun t h => h
  | cons op rest ih => exact fun t h => ih (applyOp t op) (applyOp_names t op h)

theorem mem_of_alAppendAt {β : Type} (l : List (String × List β)) (k : String) (x : β)
    (vb : String × List β) (h : vb ∈ alAppendAt l k x) :
    ∃ vb0, vb0 ∈ l ∧ (vb.2 = vb0.2 ∨ vb.2 = vb0.2 ++ [x]) := by
  rcases List.mem_map.mp h with ⟨vb0, h0, heq⟩
  refine ⟨vb0, h0, ?_⟩
  by_cases hk : vb0.1 = k
  · right; rw [← heq]; simp [hk]
  · left; rw [← heq]; simp [hk]

theorem mem_of_alExtendAt {β : Type} (l : List (String × List β)) (k : String) (xs : List β)
    (vb : String × List β) (h : vb ∈ alExtendAt l k xs) :
    ∃ vb0, vb0 ∈ l ∧ (vb.2 = vb0.2 ∨ vb.2 = vb0.2 ++ xs) := by
  rcases List.mem_map.mp h with ⟨vb0, h0, heq⟩
  refine ⟨vb0, h0, ?_⟩
  by_cases hk : vb0.1 = k
  · right; rw [← heq]; simp [hk]
  · left; rw [← heq]; simp [hk]

theorem invert_aux (t : ChangeTracker) :
    ∀ (pairs : List (String × String)) (acc : List (String × List (String × Option String))),
      (∀ vb ∈ acc, ∀ x ∈ vb.2, ∃ w, t.last_name_by_id.lookup w = some x) →
      ∀ vb ∈ pairs.foldl
          (fun acc uv =>
            match t.last_name_by_id.lookup uv.1 with
            | some entry => alAppendAt acc uv.2 entry
            | none => acc)
          acc,
        ∀ x ∈ vb.2, ∃ w, t.last_name_by_id.lookup w = some x := by
  intro pairs
  induction pairs with
  | nil => exact fun acc h => h
  | cons uv rest ih =>
    intro acc hacc
    simp only [List.foldl_cons]
    cases hl : t.last_name_by_id.lookup uv.1 with
    | none => exact ih acc hacc
    | some entry =>
      refine ih (alAppendAt acc uv.2 entry) ?_
      intro vb hvb x hx
      rcases mem_of_alAppendAt acc uv.2 entry vb hvb with ⟨vb0, h0, heq | heq⟩
      · exact hacc vb0 h0 x (heq ▸ hx)
      · rw [heq] at hx
        rcases List.mem_append.mp hx with hm | hm
        · exact hacc vb0 h0 x hm
        · rw [List.mem_singleton.mp hm]
          exact ⟨uv.1, hl⟩

/-- Every entry of an inverted bucket is a recorded name of the
tracker. -/
theorem entry_of_invert (t : ChangeTracker) (vb : String × List (String × Option String))
    (h : vb ∈ invert_tracker t) (x : String × Option String) (hx : x ∈ vb.2) :
    ∃ w, t.last_name_by_id.lookup w = some x := by
  simp only [invert_tracker] at h
  refine invert_aux t t.earliest_seen _ ?_ vb h x hx
  intro vb0 h0 y hy
  rcases List.mem_map.mp h0 with ⟨v, _, heq⟩
  rw [← heq] at hy
  simp at hy

theorem collapse_aux (is_pre : String → Bool) (strip : String → String)
    (versions_by_date : List String)
    (collapsing : List (String × List (String × Option String))) :
    ∀ (l : List String) (acc : List (String × List (String × Option String))),
      (∀ vb ∈ acc, ∀ x ∈ vb.2, ∃ vb0 ∈ collapsing, x ∈ vb0.2) →
      ∀ vb ∈ l.foldl
          (fun acc ov =>
            if (collapsing.lookup ov).isNone then acc
            else
              let canonical_ver :=
                if is_pre ov then
                  let cv := strip ov
                  if cv ∈ versions_by_date then cv else ov
                else ov
              let acc := if (acc.lookup canonical_ver).isSome then acc
                else acc ++ [(canonical_ver, [])]
              alExtendAt acc canonical_ver ((collapsing.lookup ov).getD []))
          acc,
        ∀ x ∈ vb.2, ∃ vb0 ∈ collapsing, x ∈ vb0.2 := by
  intro l
  induction l with
  | nil => exact fun acc h => h
  | cons ov rest ih =>
    intro acc hacc
    simp only [List.foldl_cons]
    cases hl : collapsing.lookup ov with
    | none =>
      rw [if_pos (by simp [hl])]
      exact ih acc hacc
    | some bucket =>
      rw [if_neg (by simp [hl])]
      refine ih _ ?_
      generalize (if is_pre ov = true then
        if strip ov ∈ versions_by_date then strip ov else ov else ov) = q
      have hacc1 : ∀ vb1 ∈ (if (List.lookup q acc).isSome = true then acc
          else acc ++ [(q, [])]),
          ∀ y ∈ vb1.2, ∃ vb0 ∈ collapsing, y ∈ vb0.2 := by
        by_cases hs : (List.lookup q acc).isSome = true
        · rw [if_pos hs]; exact hacc
        · rw [if_neg hs]
          intro vb1 hvb1 y hy
          rcases List.mem_append.mp hvb1 with hm | hm
          · exact hacc vb1 hm y hy
          · rw [List.mem_singleton.mp hm] at hy
            simp at hy
      intro vb hvb x hx
      rcases mem_of_alExtendAt _ _ _ vb hvb with ⟨vb0, h0, heq | heq⟩
      · exact hacc1 vb0 h0 x (heq ▸ hx)
      · rw [heq] at hx
        rcases List.mem_append.mp hx with hm | hm
        · exact hacc1 vb0 h0 x hm
        · simp only [Option.getD_some] at hm
          exact ⟨(ov, bucket), lookup_mem collapsing ov bucket hl, hm⟩

/-- Every entry of a collapsed bucket comes from some input bucket. -/
theorem entry_of_collapse (is_pre : String → Bool) (strip : String → String)
    (versions_by_date : List String)
    (collapsing : List (String × List (String × Option String)))
    (vb : String × List (String × Option String))
    (h : vb ∈ collapse_buckets is_pre strip versions_by_date collapsing)
    (x : String × Option String) (hx : x ∈ vb.2) :
    ∃ vb0 ∈ collapsing, x ∈ vb0.2 := by
  simp only [collapse_buckets] at h
  exact collapse_aux is_pre strip versions_by_date collapsing versions_by_date []
    (by intro vb0 h0; simp at h0) vb h x hx

/-- Every entry of a trimmed bucket comes from the bucket recorded for
that version. -/
theorem entry_of_trim :
    ∀ (earliest : Option String) (ft : List (String × List (String × Option String)))
      (vs : List String) (vb : String × List (String × Option String)),
      vb ∈ trim_output earliest ft vs →
      ∀ x ∈ vb.2, ∃ vb0 ∈ ft, x ∈ vb0.2 := by
  intro earliest ft vs
  induction vs with
  | nil => intro vb h; simp [trim_output] at h
  | cons ov rest ih =>
    intro vb h
    cases hl : ft.lookup ov with
    | none =>
      simp only [trim_output, hl] at h
      exact ih vb h
    | some bucket =>
      cases bucket with
      | nil =>
        simp only [trim_output, hl] at h
        exact ih vb h
      | cons b bs =>
        simp only [trim_output, hl] at h
        rcases List.mem_cons.mp h with hv | h2
        · intro x hx
          rw [hv] at hx
          have : x ∈ b :: bs :=
            ((List.perm_insertionSort pairLe (b :: bs)).mem_iff).mp hx
          exact ⟨(ov, b :: bs), lookup_mem ft ov (b :: bs) hl, this⟩
        · by_cases he : earliest = some ov
          · simp [he] at h2
          · exact ih vb (by simpa [he] using h2)

/-- C5: if the first operation of the walk that touches UID `u` is a
delete — i.e. the UID's final chronological state is deleted, with no
later re-addition — then after the whole walk `u` has no entry in
`last_name_by_id`, and no `(path, commit-id)` entry of any output bucket
carries UID `u`. -/
theorem C5_final_delete_excludes_uid :
    ∀ (l1 l2 : List TrackerOp) (f : String) (sha : Option String) (ver u : String)
      (is_pre : String → Bool) (strip : String → String) (collapse : Bool)
      (earliest : Option String) (current : String) (vbd : List String),
      get_unique_id f = u →
      (∀ op ∈ l1, ¬ op.uid = u) →
      (applyOps (l1 ++ TrackerOp.delete f sha ver :: l2)).last_name_by_id.lookup u = none ∧
      ∀ vb ∈ notes_by_version_post is_pre strip collapse earliest current vbd
          (applyOps (l1 ++ TrackerOp.delete f sha ver :: l2)),
        ∀ e ∈ vb.2, ¬ get_unique_id e.1 = u := by
  intro l1 l2 f sha ver u is_pre strip collapse earliest current vbd huid hl1
  have hsplit : applyOps (l1 ++ TrackerOp.delete f sha ver :: l2) =
      l2.foldl applyOp (applyOp (l1.foldl applyOp ChangeTracker.init)
        (TrackerOp.delete f sha ver)) := by
    simp [applyOps, List.foldl_append]
  have h1 : (l1.foldl applyOp ChangeTracker.init).last_name_by_id.lookup u = none :=
    (foldl_untouched l1 ChangeTracker.init u hl1).1.trans rfl
  have h2 : u ∈ (applyOp (l1.foldl applyOp ChangeTracker.init)
        (TrackerOp.delete f sha ver)).uniqueids_deleted ∧
      (applyOp (l1.foldl applyOp ChangeTracker.init)
        (TrackerOp.delete f sha ver)).last_name_by_id.lookup u = none := by
    simp only [applyOp, ChangeTracker.delete, common_last_name, common_deleted, huid]
    rw [if_pos (by rw [h1]; rfl)]
    exact ⟨mem_setAdd.mpr (Or.inr rfl), h1⟩
  have h3 := foldl_preserve l2 _ u h2.1 h2.2
  rw [← hsplit] at h3
  refine ⟨h3.2, ?_⟩
  intro vb hvb e he
  simp only [notes_by_version_post] at hvb
  have hft : ∃ vb0 ∈ invert_tracker (applyOps (l1 ++ TrackerOp.delete f sha ver :: l2)),
      e ∈ vb0.2 := by
    rcases entry_of_trim _ _ _ vb hvb e he with ⟨vb1, hvb1, he1⟩
    by_cases hc : collapse = true
    · rw [if_pos hc] at hvb1
      exact entry_of_collapse _ _ _ _ vb1 hvb1 e he1
    · rw [if_neg hc] at hvb1
      exact ⟨vb1, hvb1, he1⟩
  rcases hft with ⟨vb0, hvb0, he0⟩
  rcases entry_of_invert _ vb0 hvb0 e he0 with ⟨w, hw⟩
  have hwname : get_unique_id e.1 = w :=
    foldl_names _ ChangeTracker.init (by intro w fn sh hm; simp [ChangeTracker.init] at hm)
      w e.1 e.2 (lookup_mem _ w e hw)
  intro hcontra
  rw [hcontra] at hwname
  rw [← hwname] at hw
  rw [h3.2] at hw
  exact Option.noConfusion hw

/-- Witness for C5: the walk sees only a delete of
`gone-aaaabbbbccccdddd.yaml`; its UID records no name and, in
particular, is absent from `last_name_by_id`. -/
theorem C5_final_delete_excludes_uid_witness :
    (applyOps ([] ++ TrackerOp.delete "releasenotes/notes/gone-aaaabbbbccccdddd.yaml"
        (some "c3") "2.0.0" :: [])).last_name_by_id.lookup "aaaabbbbccccdddd" = none ∧
    ∀ vb ∈ notes_by_version_post default_is_pre_release strip_pre_release_default true none
        "2.0.0" ["2.0.0"]
        (applyOps ([] ++ TrackerOp.delete "releasenotes/notes/gone-aaaabbbbccccdddd.yaml"
          (some "c3") "2.0.0" :: [])),
      ∀ e ∈ vb.2, ¬ get_unique_id e.1 = "aaaabbbbccccdddd" :=
  C5_final_delete_excludes_uid [] [] "releasenotes/notes/gone-aaaabbbbccccdddd.yaml"
    (some "c3") "2.0.0" "aaaabbbbccccdddd" default_is_pre_release
    strip_pre_release_default true none "2.0.0" ["2.0.0"]
    (by decide) (by intro op hop; simp at hop)

end Reno
